import Mathlib

/-!
Verification of the TestcaseQA repository (src/app.py).

The file shallowly embeds the core logic of the test-case generator:
the model-fallback generation loop of `generate_test_cases`, its
greedy bracket-scan JSON extraction, the category normalizer
`ensure_all_categories`, and the CSV export `export_to_csv`.
External collaborators (the generative-text API and the JSON parser
of the standard library) are parameters of the embedded functions.
The mapping differ `compareFields` is not present under src/ and is
modelled from the specification.
-/

/-- JSON-compatible values, as produced by a JSON parser.  Numbers are
modelled as integers; no claim involves numeric values. -/
inductive Json where
  | null : Json
  | bool : Bool → Json
  | num : Int → Json
  | str : String → Json
  | arr : List Json → Json
  | obj : List (String × Json) → Json

/-- A Python dict with string keys, modelled as an association list in
insertion order (no duplicate keys arise in the embedded code paths). -/
abbrev Dict : Type := List (String × Json)

/-- Python `d[k]` / `d.get(k)`: the value at the first matching key. -/
def dictGet (d : Dict) (k : String) : Option Json :=
  match d with
  | [] => none
  | (k', v) :: rest => if k' = k then some v else dictGet rest k

/-- Python `d[k] = v`: overwrite the value at the existing key keeping
its position (a dict has at most one occurrence of a key), otherwise
append the new key at the end (dict insertion order). -/
def dictSet (d : Dict) (k : String) (v : Json) : Dict :=
  match d with
  | [] => [(k, v)]
  | (k', v') :: rest => if k' = k then (k, v) :: rest else (k', v') :: dictSet rest k v

/-- A test-case group: Python dicts with a `category` string and a
`testCases` list of test-case dicts (src/app.py, `ensure_all_categories`
and the prompt's response schema). -/
structure TCGroup where
  category : String
  testCases : List Dict

/-- The fixed 8-entry category list (src/app.py, `CATEGORIES`). -/
def CATEGORIES : List String :=
  ["Positive", "Negative", "Edge Cases", "Boundary",
   "Integration", "Performance", "Security", "Usability"]

/-- The id assigned to a test case:
`f"{category}-{idx}-{int(datetime.now().timestamp() * 1000)}"`
(src/app.py line 188). -/
def idString (c : String) (idx : Nat) (t : Nat) : String :=
  c ++ "-" ++ toString idx ++ "-" ++ toString t

/-- Lookup of `category_map[c]` where
`category_map = {group['category']: group for group in groups}`:
the LAST group with the given category wins, as later dict-comprehension
entries overwrite earlier ones (src/app.py line 173). -/
def lookupLast (gs : List TCGroup) (c : String) : Option TCGroup :=
  match gs with
  | [] => none
  | g :: rest =>
    match lookupLast rest c with
    | some g' => some g'
    | none => if g.category == c then some g else none

/-- The id-assignment loop `for idx, tc in enumerate(group['testCases'])`
(src/app.py lines 187-188).  `clock k` is the k-th reading of the
wall-clock epoch-milliseconds; the clock is read once per test case, so
the read counter `k` is threaded through and returned. -/
def assignIds (clock : Nat → Nat) (c : String) : Nat → Nat → List Dict → List Dict × Nat
  | _, k, [] => ([], k)
  | idx, k, tc :: rest =>
    let tc2 := dictSet tc "id" (Json.str (idString c idx (clock k)))
    let p := assignIds clock c (idx + 1) (k + 1) rest
    (tc2 :: p.fst, p.snd)

/-- The result-building loop `for category in CATEGORIES` of
`ensure_all_categories` (src/app.py lines 184-189): look up the group
for each fixed category (synthesizing an empty one when absent), assign
ids to its test cases, and append it to the result.  The clock-read
counter is threaded through. -/
def normalizeGroups (clock : Nat → Nat) (gs : List TCGroup) : Nat → List String → List TCGroup × Nat
  | k, [] => ([], k)
  | k, c :: cs =>
    let g := (lookupLast gs c).getD { category := c, testCases := [] }
    let p := assignIds clock c 0 k g.testCases
    let q := normalizeGroups clock gs p.snd cs
    ({ category := g.category, testCases := p.fst } :: q.fst, q.snd)

/-- `ensure_all_categories` (src/app.py lines 171-191), parameterized by
the wall clock. -/
def ensure_all_categories (clock : Nat → Nat) (gs : List TCGroup) : List TCGroup :=
  (normalizeGroups clock gs 0 CATEGORIES).fst

/-- Total number of clock reads made by `ensure_all_categories`. -/
def normalizeReads (clock : Nat → Nat) (gs : List TCGroup) : Nat :=
  (normalizeGroups clock gs 0 CATEGORIES).snd


/-- Index of the first character satisfying `p` (regex leftmost-match
start position). -/
def firstIdx (p : Char → Bool) : List Char → Option Nat
  | [] => none
  | c :: cs => if p c then some 0 else (firstIdx p cs).map (· + 1)

/-- Index of the last character satisfying `p` (greedy regex match end
position). -/
def lastIdx (p : Char → Bool) : List Char → Option Nat
  | [] => none
  | c :: cs =>
    match lastIdx p cs with
    | some j => some (j + 1)
    | none => if p c then some 0 else none

/-- The search `re.search(r'\[[\s\S]*\]', response_text)` of
src/app.py line 149: the leftmost-longest match of a bracket-delimited
substring, i.e. from the first opening bracket to the last closing
bracket after it. -/
def json_match (cs : List Char) : Option (List Char) :=
  match firstIdx (fun c => c == '[') cs, lastIdx (fun c => c == ']') cs with
  | some i, some j => if i < j then some ((cs.drop i).take (j + 1 - i)) else none
  | _, _ => none

/-- Classification of a JSON parse outcome by the checks of src/app.py
lines 151-159: a parse failure raises `json.JSONDecodeError`; a parsed
value that is not a list, or is empty (falsy), raises
`Invalid response format from AI`; a non-empty list is returned. -/
def classify : Option Json → Except String (List Json)
  | none => Except.error "JSON parsing error"
  | some (Json.arr []) => Except.error "Invalid response format from AI"
  | some (Json.arr (x :: xs)) => Except.ok (x :: xs)
  | some _ => Except.error "Invalid response format from AI"

/-- The parse phase of one loop iteration (src/app.py lines 148-159):
extract a bracket-delimited candidate when one exists, otherwise use the
whole response text, parse it with the ambient JSON parser `parse` and
classify the outcome. -/
def parse_step (parse : List Char → Option Json) (text : List Char) :
    Except String (List Json) :=
  classify (parse ((json_match text).getD text))

/-- One iteration of the model-fallback loop (src/app.py lines 124-167)
for model identifier `m`: `respond m` models the external call
(an `Except.error` is a raised exception), an empty response text raises
`Empty response from Gemini API`, and otherwise the response is parsed.
The resulting `Except.error` value is the recorded failure reason. -/
def model_attempt (parse : List Char → Option Json)
    (respond : String → Except String (List Char)) (m : String) :
    Except String (List Json) :=
  match respond m with
  | Except.error e => Except.error e
  | Except.ok t =>
    if t = [] then Except.error "Empty response from Gemini API"
    else parse_step parse t

/-- Terminal failures of the generation flow: the blank-input rejection
and the all-models-failed exception of src/app.py line 169, the latter
carrying the last recorded failure reason (`None` when no model was
configured). -/
inductive GenFailure where
  | emptyInput : GenFailure
  | generationExhausted : Option String → GenFailure

/-- The model-fallback loop of `generate_test_cases` (src/app.py lines
123-169): try each model identifier in order, return the first
successfully parsed non-empty array, record the failure reason in
`last_error` otherwise, and raise an exhaustion error at the end.  The
second component of the result is the list of model identifiers that
were actually invoked, in invocation order. -/
def run_models (parse : List Char → Option Json)
    (respond : String → Except String (List Char)) :
    List String → Option String → Except GenFailure (List Json) × List String
  | [], last => (Except.error (GenFailure.generationExhausted last), [])
  | m :: rest, _last =>
    match model_attempt parse respond m with
    | Except.ok xs => (Except.ok xs, [m])
    | Except.error e =>
      let p := run_models parse respond rest (some e)
      (p.fst, m :: p.snd)

/-- The configured model identifiers (src/app.py line 119). -/
def models_to_try : List String :=
  ["gemini-2.5-flash", "gemini-2.5-pro", "gemini-pro"]

/-- `generate_test_cases` (src/app.py lines 99-169) restricted to its
model-fallback core, with the external JSON parser and generative-text
collaborator as parameters: `last_error` starts as `None`. -/
def generate_test_cases (parse : List Char → Option Json)
    (respond : String → Except String (List Char)) (models : List String) :
    Except GenFailure (List Json) × List String :=
  run_models parse respond models none

/-- Python blank test `not prd_text or not prd_text.strip()`
(src/app.py line 264): true iff every character is whitespace. -/
def is_blank (cs : List Char) : Bool :=
  cs.all fun c => c.isWhitespace

/-- The generation pipeline of the main flow (src/app.py lines 262-276):
reject blank document text before any generative call is made, otherwise
run the model-fallback loop.  The second component again records the
invoked models. -/
def main_flow (parse : List Char → Option Json)
    (respond : String → Except String (List Char)) (models : List String)
    (prd_text : List Char) : Except GenFailure (List Json) × List String :=
  if is_blank prd_text then (Except.error GenFailure.emptyInput, [])
  else run_models parse respond models none

mutual
/-- Python `repr` of a JSON-compatible value, as used by `str` on
containers. -/
def pyRepr : Json → String
  | Json.null => "None"
  | Json.bool true => "True"
  | Json.bool false => "False"
  | Json.num n => toString n
  | Json.str s => "'" ++ s ++ "'"
  | Json.arr xs => "[" ++ pyReprList xs ++ "]"
  | Json.obj kvs => "\x7b" ++ pyReprObj kvs ++ "\x7d"

/-- Comma-separated `repr` of list elements. -/
def pyReprList : List Json → String
  | [] => ""
  | [x] => pyRepr x
  | x :: y :: xs => pyRepr x ++ ", " ++ pyReprList (y :: xs)

/-- Comma-separated `repr` of dict entries. -/
def pyReprObj : List (String × Json) → String
  | [] => ""
  | [(k, v)] => "'" ++ k ++ "': " ++ pyRepr v
  | (k, v) :: e :: kvs => "'" ++ k ++ "': " ++ pyRepr v ++ ", " ++ pyReprObj (e :: kvs)
end

/-- Python `str` of a JSON-compatible value: the string itself for
strings, `repr`-style rendering otherwise (as applied by `csv.writer`
to each cell). -/
def pyStr : Json → String
  | Json.str s => s
  | j => pyRepr j

/-- A CSV cell built by `tc.get(key, default)` followed by the
stringification of `csv.writer` (src/app.py lines 209-216). -/
def cellStr (tc : Dict) (k : String) (dflt : String) : String :=
  match dictGet tc k with
  | none => dflt
  | some v => pyStr v

/-- Python `' | '.join(ss)`. -/
def joinPipe : List String → String
  | [] => ""
  | [s] => s
  | s :: t :: ss => s ++ " | " ++ joinPipe (t :: ss)

/-- Extraction of a list of strings; `none` models the `TypeError`
raised by `str.join` on a non-string element. -/
def asStrings : List Json → Option (List String)
  | [] => some []
  | Json.str s :: xs => (asStrings xs).map (s :: ·)
  | _ :: _ => none

/-- The cell `' | '.join(tc.get('steps', []))` (src/app.py line 208):
joining iterates a list, the characters of a string, or the keys of a
dict; anything else (or a non-string element) raises, modelled as
`none`. -/
def stepsCell (tc : Dict) : Option String :=
  match dictGet tc "steps" with
  | none => some ""
  | some (Json.arr xs) => (asStrings xs).map joinPipe
  | some (Json.str s) => some (joinPipe (s.toList.map fun c => String.singleton c))
  | some (Json.obj kvs) => some (joinPipe (kvs.map Prod.fst))
  | some _ => none

/-- The header row written by `export_to_csv` (src/app.py line 203). -/
def headerRow : List String :=
  ["Category", "Title", "Description", "Steps", "Expected Result", "Priority"]

/-- One data row of `export_to_csv` (src/app.py lines 208-216). -/
def csv_row (cat : String) (tc : Dict) : Option (List String) :=
  (stepsCell tc).map fun st =>
    [cat, cellStr tc "title" "", cellStr tc "description" "", st,
     cellStr tc "expectedResult" "", cellStr tc "priority" "Medium"]

/-- Option-valued `mapM`: all results, or `none` as soon as one step
raises. -/
def optMapM (f : α → Option β) : List α → Option (List β)
  | [] => some []
  | x :: xs =>
    match f x, optMapM f xs with
    | some y, some ys => some (y :: ys)
    | _, _ => none

/-- The rows contributed by one group: one per test case, in order
(src/app.py lines 206-216). -/
def rowsOfGroup (g : TCGroup) : Option (List (List String)) :=
  optMapM (csv_row g.category) g.testCases

/-- `export_to_csv` (src/app.py lines 197-218) at the level of rows of
cells: the header row followed by one row per test case across all
groups in order; `none` models a raised `TypeError`. -/
def export_to_csv_rows (gs : List TCGroup) : Option (List (List String)) :=
  match optMapM rowsOfGroup gs with
  | none => none
  | some rss => some (headerRow :: rss.flatten)

/-- Minimal quoting of `csv.writer`: a field is quoted iff it contains
a delimiter, a quote character or a line break. -/
def csvNeedsQuote (s : String) : Bool :=
  s.toList.any fun c => c == ',' || c == '"' || c == '\n' || c == '\r'

/-- A CSV field, quoted when needed, with embedded quotes doubled. -/
def csvQuoteField (s : String) : String :=
  if csvNeedsQuote s then
    "\"" ++ String.mk (s.toList.flatMap fun c => if c == '"' then ['"', '"'] else [c]) ++ "\""
  else s

/-- `export_to_csv` serialized to one string, rows terminated by CRLF
(the `csv` module default). -/
def export_to_csv (gs : List TCGroup) : Option String :=
  (export_to_csv_rows gs).map fun rows =>
    String.join (rows.map fun r => String.intercalate "," (r.map csvQuoteField) ++ "\r\n")

/-- One row of the mapping-diff report (spec section 3). -/
structure ComparisonRow where
  field : String
  leftValue : String
  rightValue : String
  matched : Bool

/-- Strict lexicographic order on character lists, the order by which
Python `sorted` arranges strings. -/
def lexLt : List Char → List Char → Bool
  | [], [] => false
  | [], _ :: _ => true
  | _ :: _, [] => false
  | a :: as, b :: bs => if a < b then true else if b < a then false else lexLt as bs

/-- Strict lexicographic order on strings. -/
def strLt (a b : String) : Bool := lexLt a.toList b.toList

/-- Non-strict lexicographic order on strings. -/
def strLe (a b : String) : Bool := !(strLt b a)

/-- Insertion of a string into a lexicographically sorted list. -/
def insertSorted (x : String) : List String → List String
  | [] => [x]
  | y :: ys => if strLe x y then x :: y :: ys else y :: insertSorted x ys

/-- Insertion sort of strings in ascending lexicographic order. -/
def sortStrings : List String → List String
  | [] => []
  | x :: xs => insertSorted x (sortStrings xs)

/-- Modelled from the spec: the key set of `compareFields`, i.e. the
union of the keys of both mappings sorted lexicographically ascending
without duplicates (the mapping-differ scripts are not under src/). -/
def unionKeys (L R : Dict) : List String :=
  sortStrings ((L.map Prod.fst ++ R.map Prod.fst).dedup)

/-- Modelled from the spec: the stringified value of a key, defaulting
to the empty string when absent. -/
def valueStr (m : Dict) (k : String) : String :=
  match dictGet m k with
  | none => ""
  | some v => pyStr v

/-- Modelled from the spec: `compareFields` of the mapping differ, which
is not under src/.  One row per key of the sorted key union; `matched`
is true iff the key exists in both mappings and the stringified values
are equal. -/
def compareFields (L R : Dict) : List ComparisonRow :=
  (unionKeys L R).map fun k =>
    { field := k
      leftValue := valueStr L k
      rightValue := valueStr R k
      matched := (dictGet L k).isSome && (dictGet R k).isSome
                   && (valueStr L k == valueStr R k) }

/-- Well-typedness of the `steps` field of a test case: absent, or an
array whose elements are all strings (the shape the prompt requests). -/
def stepsOkB (tc : Dict) : Bool :=
  match dictGet tc "steps" with
  | none => true
  | some (Json.arr xs) => xs.all fun j => match j with | Json.str _ => true | _ => false
  | some _ => false

/-- The steps sequence of a test case as the spec describes it: the
string elements of the `steps` field, or the empty sequence when the
field is absent. -/
def spec_steps (tc : Dict) : List String :=
  match dictGet tc "steps" with
  | some (Json.arr xs) => xs.filterMap fun j => match j with | Json.str s => some s | _ => none
  | _ => []

/-- A CSV data row as the spec describes it: category, title,
description, the steps flattened with a pipe separator, expected result,
and priority defaulting to Medium. -/
def spec_csv_row (cat : String) (tc : Dict) : List String :=
  [cat, cellStr tc "title" "", cellStr tc "description" "",
   joinPipe (spec_steps tc), cellStr tc "expectedResult" "", cellStr tc "priority" "Medium"]

/-- A concrete wall clock used to instantiate the normalizer theorems. -/
def clock0 : Nat → Nat := fun _ => 1731500000000

/-- A concrete response text that is exactly a JSON array. -/
def demoText : List Char :=
  "[\x7b\"category\":\"Positive\",\"testCases\":[]\x7d]".toList

/-- The parsed form of `demoText`. -/
def demoArr : List Json :=
  [Json.obj [("category", Json.str "Positive"), ("testCases", Json.arr [])]]

/-- A concrete JSON parser that recognises exactly `demoText`. -/
def demoParse : List Char → Option Json :=
  fun t => if t = demoText then some (Json.arr demoArr) else none

/-- A concrete generative-text collaborator: the first two models reply
with unparseable prose, the third with `demoText`. -/
def demoRespond : String → Except String (List Char) :=
  fun m =>
    if m = "gemini-2.5-flash" then Except.ok "the model replied with prose".toList
    else if m = "gemini-2.5-pro" then Except.ok "still no structured output".toList
    else Except.ok demoText

/-- A concrete generative-text collaborator whose every call raises. -/
def allFail : String → Except String (List Char) :=
  fun _ => Except.error "quota exceeded"

/-! ### Lemmas about the model-fallback loop -/

/-- One loop step on a failing model records the reason and advances. -/
theorem run_models_cons_error (parse : List Char → Option Json)
    (respond : String → Except String (List Char)) (m : String)
    (rest : List String) (last0 : Option String) (e : String)
    (h : model_attempt parse respond m = Except.error e) :
    run_models parse respond (m :: rest) last0
      = ((run_models parse respond rest (some e)).fst,
         m :: (run_models parse respond rest (some e)).snd) := by
  simp [run_models, h]

/-- One loop step on a succeeding model returns its array at once. -/
theorem run_models_cons_ok (parse : List Char → Option Json)
    (respond : String → Except String (List Char)) (m : String)
    (rest : List String) (last0 : Option String) (xs : List Json)
    (h : model_attempt parse respond m = Except.ok xs) :
    run_models parse respond (m :: rest) last0 = (Except.ok xs, [m]) := by
  simp [run_models, h]

/-- A run over models that all fail up to the first success skips the
failing prefix and returns the first success, invoking nothing after
it. -/
theorem run_models_first_success (parse : List Char → Option Json)
    (respond : String → Except String (List Char))
    (pre post : List String) (m : String) (xs : List Json) (last0 : Option String)
    (hpre : ∀ m' ∈ pre, ∃ e, model_attempt parse respond m' = Except.error e)
    (hm : model_attempt parse respond m = Except.ok xs) :
    run_models parse respond (pre ++ m :: post) last0 = (Except.ok xs, pre ++ [m]) := by
  induction pre generalizing last0 with
  | nil => simpa using run_models_cons_ok parse respond m post last0 xs hm
  | cons m0 pre ih =>
    obtain ⟨e, he⟩ := hpre m0 (by simp)
    have ih' := ih (some e) (fun m' hm' => hpre m' (List.mem_cons_of_mem _ hm'))
    rw [List.cons_append, run_models_cons_error parse respond m0 _ last0 e he, ih']
    simp

/-- A run over models that all fail ends in the exhaustion error
carrying the failure reason of the last model. -/
theorem run_models_exhaust (parse : List Char → Option Json)
    (respond : String → Except String (List Char)) :
    ∀ (models : List String) (hne : models ≠ []) (last0 : Option String),
    (∀ m ∈ models, ∃ e, model_attempt parse respond m = Except.error e) →
    ∃ e, model_attempt parse respond (models.getLast hne) = Except.error e ∧
      (run_models parse respond models last0).fst
        = Except.error (GenFailure.generationExhausted (some e)) ∧
      (run_models parse respond models last0).snd = models
  | [], hne, _, _ => absurd rfl hne
  | [m], _, last0, hall => by
    obtain ⟨e, he⟩ := hall m (by simp)
    refine ⟨e, by simpa using he, ?_, ?_⟩
    · rw [run_models_cons_error parse respond m [] last0 e he]
      simp [run_models]
    · rw [run_models_cons_error parse respond m [] last0 e he]
      simp [run_models]
  | m :: m2 :: rest, _, last0, hall => by
    obtain ⟨e0, he0⟩ := hall m (by simp)
    obtain ⟨e, he, hfst, hsnd⟩ :=
      run_models_exhaust parse respond (m2 :: rest) (by simp) (some e0)
        (fun m' hm' => hall m' (List.mem_cons_of_mem _ hm'))
    refine ⟨e, ?_, ?_, ?_⟩
    · rwa [List.getLast_cons (by simp)]
    · rw [run_models_cons_error parse respond m _ last0 e0 he0]
      exact hfst
    · rw [run_models_cons_error parse respond m _ last0 e0 he0]
      simpa using hsnd

/-- C1: `generate_test_cases` tries the configured model identifiers
strictly in their listed order; on the first model whose response parses
to a non-empty JSON array it returns that parsed array immediately,
invoking no model after it (the second component lists the invoked
models in order). -/
theorem generate_first_success (parse : List Char → Option Json)
    (respond : String → Except String (List Char))
    (pre post : List String) (m : String) (xs : List Json)
    (hpre : ∀ m' ∈ pre, ∃ e, model_attempt parse respond m' = Except.error e)
    (hm : model_attempt parse respond m = Except.ok xs) :
    generate_test_cases parse respond (pre ++ m :: post) = (Except.ok xs, pre ++ [m]) :=
  run_models_first_success parse respond pre post m xs none hpre hm

/-- Witness for C1: with the three configured models, the first two
replying unparseable prose and the third a parseable non-empty array,
the result is the third model's parsed array and exactly the three
configured calls occur, no fourth. -/
theorem generate_first_success_witness :
    generate_test_cases demoParse demoRespond models_to_try
      = (Except.ok demoArr, ["gemini-2.5-flash", "gemini-2.5-pro", "gemini-pro"]) :=
  generate_first_success demoParse demoRespond
    ["gemini-2.5-flash", "gemini-2.5-pro"] [] "gemini-pro" demoArr
    (fun m' hm' => by
      rcases (by simpa using hm' : m' = "gemini-2.5-flash" ∨ m' = "gemini-2.5-pro")
        with rfl | rfl
      · exact ⟨"JSON parsing error", rfl⟩
      · exact ⟨"JSON parsing error", rfl⟩)
    rfl

/-- C2: if every configured model fails, `generate_test_cases` fails
with the exhaustion error carrying the last recorded failure reason and
never returns a success. -/
theorem generate_exhausted (parse : List Char → Option Json)
    (respond : String → Except String (List Char))
    (models : List String) (hne : models ≠ [])
    (hall : ∀ m ∈ models, ∃ e, model_attempt parse respond m = Except.error e) :
    ∃ e, model_attempt parse respond (models.getLast hne) = Except.error e ∧
      (generate_test_cases parse respond models).fst
        = Except.error (GenFailure.generationExhausted (some e)) ∧
      ∀ xs, (generate_test_cases parse respond models).fst ≠ Except.ok xs := by
  obtain ⟨e, he, hfst, _⟩ := run_models_exhaust parse respond models hne none hall
  refine ⟨e, he, hfst, fun xs h => ?_⟩
  simp only [generate_test_cases] at h
  rw [hfst] at h
  exact Except.noConfusion h

/-- Witness for C2: when every call raises a quota error, the result is
the exhaustion failure carrying that last reason and no success. -/
theorem generate_exhausted_witness :
    ∃ e, model_attempt demoParse allFail
        (models_to_try.getLast (List.cons_ne_nil _ _)) = Except.error e ∧
      (generate_test_cases demoParse allFail models_to_try).fst
        = Except.error (GenFailure.generationExhausted (some e)) ∧
      ∀ xs, (generate_test_cases demoParse allFail models_to_try).fst ≠ Except.ok xs :=
  generate_exhausted demoParse allFail models_to_try (List.cons_ne_nil _ _)
    (fun _ _ => ⟨"quota exceeded", rfl⟩)

/-- C4: blank document text (after trimming) is rejected with the
empty-input error and no generative call is attempted (the invoked model
list is empty). -/
theorem blank_input_rejected (parse : List Char → Option Json)
    (respond : String → Except String (List Char)) (models : List String)
    (text : List Char) (h : is_blank text = true) :
    main_flow parse respond models text = (Except.error GenFailure.emptyInput, []) := by
  simp [main_flow, h]

/-- Witness for C4: three spaces are blank and are rejected before any
call. -/
theorem blank_input_rejected_witness :
    main_flow demoParse demoRespond models_to_try "   ".toList
      = (Except.error GenFailure.emptyInput, []) :=
  blank_input_rejected demoParse demoRespond models_to_try _ (by decide)

/-! ### Lemmas about the bracket scan -/

/-- The first matching index after a prefix without matches is the pivot
position. -/
theorem firstIdx_append (p : Char → Bool) (A B : List Char) (x : Char)
    (hA : ∀ a ∈ A, p a = false) (hx : p x = true) :
    firstIdx p (A ++ x :: B) = some A.length := by
  induction A with
  | nil => simp [firstIdx, hx]
  | cons a A ih =>
    have ih' := ih fun a' ha' => hA a' (List.mem_cons_of_mem _ ha')
    simp [firstIdx, hA a (by simp), ih']

/-- There is no last matching index when nothing matches. -/
theorem lastIdx_none (p : Char → Bool) (D : List Char)
    (hD : ∀ a ∈ D, p a = false) : lastIdx p D = none := by
  induction D with
  | nil => rfl
  | cons a D ih =>
    have ih' := ih fun a' ha' => hD a' (List.mem_cons_of_mem _ ha')
    simp [lastIdx, ih', hD a (by simp)]

/-- The last matching index before a suffix without matches is the pivot
position. -/
theorem lastIdx_append (p : Char → Bool) (C D : List Char) (x : Char)
    (hD : ∀ a ∈ D, p a = false) (hx : p x = true) :
    lastIdx p (C ++ x :: D) = some C.length := by
  induction C with
  | nil => simp [lastIdx, lastIdx_none p D hD, hx]
  | cons c C ih => simp [lastIdx, ih]

/-- C5: the generator locates a candidate JSON array as the greedy
bracket-delimited substring from the first opening bracket to the last
closing bracket; with no such substring the entire text is parsed; and a
parse failure, a non-array, or an empty array makes the loop record the
failure reason and advance to the next model. -/
theorem parse_extraction_spec (parse : List Char → Option Json)
    (respond : String → Except String (List Char)) :
    (∀ (A B C D : List Char), '[' ∉ A → ']' ∉ D →
       A ++ '[' :: B = C ++ ']' :: D → A.length < C.length →
       json_match (A ++ '[' :: B)
         = some (((A ++ '[' :: B).drop A.length).take (C.length + 1 - A.length)))
  ∧ (∀ text, json_match text = none →
       parse_step parse text = classify (parse text))
  ∧ (∀ text, parse ((json_match text).getD text) = none →
       parse_step parse text = Except.error "JSON parsing error")
  ∧ (∀ text, parse ((json_match text).getD text) = some (Json.arr []) →
       parse_step parse text = Except.error "Invalid response format from AI")
  ∧ (∀ text j, parse ((json_match text).getD text) = some j →
       (∀ ys, j ≠ Json.arr ys) →
       parse_step parse text = Except.error "Invalid response format from AI")
  ∧ (∀ (m : String) (rest : List String) (last : Option String) (e : String),
       model_attempt parse respond m = Except.error e →
       run_models parse respond (m :: rest) last
         = ((run_models parse respond rest (some e)).fst,
            m :: (run_models parse respond rest (some e)).snd)) := by
  refine ⟨?_, ?_, ?_, ?_, ?_, ?_⟩
  · intro A B C D hA hD heq hlen
    have hA' : ∀ a ∈ A, (fun c => c == '[') a = false :=
      fun a ha => beq_eq_false_iff_ne.mpr (fun h => hA (h ▸ ha))
    have hD' : ∀ a ∈ D, (fun c => c == ']') a = false :=
      fun a ha => beq_eq_false_iff_ne.mpr (fun h => hD (h ▸ ha))
    have h1 := firstIdx_append (fun c => c == '[') A B '[' hA' rfl
    have h2' : lastIdx (fun c => c == ']') (A ++ '[' :: B) = some C.length := by
      rw [heq]; exact lastIdx_append (fun c => c == ']') C D ']' hD' rfl
    simp only [json_match, h1, h2']
    rw [if_pos hlen]
  · intro text h
    simp [parse_step, h]
  · intro text h
    simp [parse_step, h, classify]
  · intro text h
    simp [parse_step, h, classify]
  · intro text j hparse hne
    simp only [parse_step, hparse]
    cases j with
    | arr ys => exact absurd rfl (hne ys)
    | null => rfl
    | bool b => rfl
    | num n => rfl
    | str s => rfl
    | obj kvs => rfl
  · intro m rest last e h
    exact run_models_cons_error parse respond m rest last e h

/-- Witness for C5: on `a[b][c]d` the candidate runs greedily from the
first opening to the last closing bracket; a bracketless text is parsed
whole; and the failing first model makes the loop advance carrying its
recorded reason. -/
theorem parse_extraction_spec_witness :
    json_match "a[b][c]d".toList = some "[b][c]".toList
  ∧ parse_step demoParse "no brackets here".toList
      = classify (demoParse "no brackets here".toList)
  ∧ run_models demoParse demoRespond models_to_try none
      = ((run_models demoParse demoRespond ["gemini-2.5-pro", "gemini-pro"]
            (some "JSON parsing error")).fst,
         "gemini-2.5-flash" ::
           (run_models demoParse demoRespond ["gemini-2.5-pro", "gemini-pro"]
             (some "JSON parsing error")).snd) :=
  ⟨((parse_extraction_spec demoParse demoRespond).1 "a".toList "b][c]d".toList
      "a[b][c".toList "d".toList (by decide) (by decide) rfl (by decide)).trans rfl,
   (parse_extraction_spec demoParse demoRespond).2.1 "no brackets here".toList rfl,
   (parse_extraction_spec demoParse demoRespond).2.2.2.2.2 "gemini-2.5-flash"
     ["gemini-2.5-pro", "gemini-pro"] none "JSON parsing error" rfl⟩

/-! ### Lemmas about dict update and the normalizer -/

/-- Reading the key just set yields the new value. -/
theorem dictGet_dictSet_self (k : String) (v : Json) :
    ∀ d : Dict, dictGet (dictSet d k v) k = some v
  | [] => by simp [dictSet, dictGet]
  | (k', v') :: rest => by
    by_cases hk : k' = k
    · subst hk
      simp [dictSet, dictGet]
    · simp [dictSet, dictGet, hk, dictGet_dictSet_self k v rest]

/-- Setting a key leaves reads of every other key unchanged. -/
theorem dictGet_dictSet_ne (k : String) (v : Json) (k' : String)
    (hne : k' ≠ k) :
    ∀ d : Dict, dictGet (dictSet d k v) k' = dictGet d k'
  | [] => by
    have hkk : ¬k = k' := fun h => hne h.symm
    simp [dictSet, dictGet, hkk]
  | (k0, v0) :: rest => by
    by_cases hk : k0 = k
    · subst hk
      have hkk : ¬k0 = k' := fun h => hne h.symm
      simp [dictSet, dictGet, hkk]
    · by_cases h0 : k0 = k'
      · subst h0
        simp [dictSet, dictGet, hk]
      · simp [dictSet, dictGet, hk, h0, dictGet_dictSet_ne k v k' hne rest]

/-- The id-assignment loop reads the clock once per test case. -/
theorem assignIds_snd (clock : Nat → Nat) (c : String) :
    ∀ (tcs : List Dict) (idx k : Nat),
    (assignIds clock c idx k tcs).snd = k + tcs.length
  | [], _, _ => by simp [assignIds]
  | _ :: rest, idx, k => by
    simp [assignIds, assignIds_snd clock c rest (idx + 1) (k + 1)]
    omega

/-- The id-assignment loop preserves the number of test cases. -/
theorem assignIds_length (clock : Nat → Nat) (c : String) :
    ∀ (tcs : List Dict) (idx k : Nat),
    (assignIds clock c idx k tcs).fst.length = tcs.length
  | [], _, _ => rfl
  | _ :: rest, idx, k => by
    simp [assignIds, assignIds_length clock c rest (idx + 1) (k + 1)]

/-- The i-th output of the id-assignment loop is the i-th input with its
id set from position index and clock reading offset by i. -/
theorem assignIds_getElem (clock : Nat → Nat) (c : String) :
    ∀ (tcs : List Dict) (idx k i : Nat),
    (assignIds clock c idx k tcs).fst[i]?
      = (tcs[i]?).map fun tc =>
          dictSet tc "id" (Json.str (idString c (idx + i) (clock (k + i))))
  | [], idx, k, i => by simp [assignIds]
  | tc :: rest, idx, k, 0 => by simp [assignIds]
  | tc :: rest, idx, k, i + 1 => by
    have e1 : idx + (i + 1) = (idx + 1) + i := by omega
    have e2 : k + (i + 1) = (k + 1) + i := by omega
    simp only [assignIds, List.getElem?_cons_succ, e1, e2]
    exact assignIds_getElem clock c rest (idx + 1) (k + 1) i

/-- A group found in the category map has the category it was looked up
by. -/
theorem lookupLast_category :
    ∀ (gs : List TCGroup) (c : String) (g : TCGroup),
    lookupLast gs c = some g → g.category = c
  | [], _, _ => by simp [lookupLast]
  | g0 :: rest, c, g => by
    simp only [lookupLast]
    cases hr : lookupLast rest c with
    | some g' =>
      intro h
      cases h
      exact lookupLast_category rest c g hr
    | none =>
      by_cases hc : (g0.category == c) = true
      · rw [if_pos hc]
        intro h
        cases h
        exact beq_iff_eq.mp hc
      · rw [if_neg hc]
        intro h
        exact Option.noConfusion h

/-- The category map has no entry for a category no group carries. -/
theorem lookupLast_eq_none :
    ∀ (gs : List TCGroup) (c : String), (∀ g ∈ gs, g.category ≠ c) →
    lookupLast gs c = none
  | [], _, _ => rfl
  | g0 :: rest, c, h => by
    have hr := lookupLast_eq_none rest c fun g hg => h g (List.mem_cons_of_mem _ hg)
    have h0 : (g0.category == c) = false := beq_eq_false_iff_ne.mpr (h g0 (by simp))
    simp [lookupLast, hr, h0]

/-- The category map maps a category to its last occurrence. -/
theorem lookupLast_concat_mid :
    ∀ (l1 : List TCGroup) (g : TCGroup) (l2 : List TCGroup) (c : String),
    g.category = c → (∀ g' ∈ l2, g'.category ≠ c) →
    lookupLast (l1 ++ g :: l2) c = some g
  | [], g, l2, c, hg, h2 => by
    simp [lookupLast, lookupLast_eq_none l2 c h2, beq_iff_eq.mpr hg]
  | g0 :: l1, g, l2, c, hg, h2 => by
    simp [lookupLast, lookupLast_concat_mid l1 g l2 c hg h2]

/-- The looked-up (or synthesized) group for a category has that
category. -/
theorem lookupLast_getD_category (gs : List TCGroup) (c : String) :
    ((lookupLast gs c).getD { category := c, testCases := [] }).category = c := by
  cases h : lookupLast gs c with
  | none => rfl
  | some g => exact lookupLast_category gs c g h

/-- The normalizer emits exactly the requested categories, in order. -/
theorem normalizeGroups_map_category (clock : Nat → Nat) (gs : List TCGroup) :
    ∀ (cats : List String) (k : Nat),
    ((normalizeGroups clock gs k cats).fst).map TCGroup.category = cats
  | [], _ => rfl
  | c :: cs, k => by
    simp [normalizeGroups, lookupLast_getD_category gs c,
      normalizeGroups_map_category clock gs cs]

/-- For every requested category the normalizer's output contains the
group built from its (looked-up or synthesized) source group, with ids
assigned from some clock-read offset. -/
theorem normalizeGroups_mem (clock : Nat → Nat) (gs : List TCGroup) :
    ∀ (cats : List String) (k0 : Nat) (c : String), c ∈ cats →
    ∃ k, ({ category := ((lookupLast gs c).getD { category := c, testCases := [] }).category,
            testCases := (assignIds clock c 0 k
              ((lookupLast gs c).getD { category := c, testCases := [] }).testCases).fst }
          : TCGroup)
        ∈ (normalizeGroups clock gs k0 cats).fst
  | [], _, c, hc => absurd hc (by simp)
  | c0 :: cs, k0, c, hc => by
    rcases List.mem_cons.mp hc with rfl | hmem
    · refine ⟨k0, ?_⟩
      simp only [normalizeGroups]
      exact List.mem_cons_self _ _
    · obtain ⟨k, hk⟩ := normalizeGroups_mem clock gs cs
        ((assignIds clock c0 0 k0
          ((lookupLast gs c0).getD { category := c0, testCases := [] }).testCases).snd)
        c hmem
      refine ⟨k, ?_⟩
      simp only [normalizeGroups]
      exact List.mem_cons_of_mem _ hk

/-- Every group the normalizer outputs was built for one of the
requested categories, with ids assigned from some clock-read offset. -/
theorem normalizeGroups_shape (clock : Nat → Nat) (gs : List TCGroup) :
    ∀ (cats : List String) (k0 : Nat) (gOut : TCGroup),
    gOut ∈ (normalizeGroups clock gs k0 cats).fst →
    ∃ c k, c ∈ cats ∧ gOut.category = c ∧
      gOut.testCases = (assignIds clock c 0 k
        ((lookupLast gs c).getD { category := c, testCases := [] }).testCases).fst
  | [], k0, gOut => by simp [normalizeGroups]
  | c0 :: cs, k0, gOut => by
    simp only [normalizeGroups]
    intro h
    rcases List.mem_cons.mp h with h0 | hmem
    · refine ⟨c0, k0, by simp, ?_, ?_⟩
      · rw [h0]
        exact lookupLast_getD_category gs c0
      · rw [h0]
    · obtain ⟨c, k, hc, h1, h2⟩ := normalizeGroups_shape clock gs cs _ gOut hmem
      exact ⟨c, k, List.mem_cons_of_mem _ hc, h1, h2⟩

/-- The final clock-read counter is the initial one plus the total
number of test cases across the emitted groups. -/
theorem normalizeGroups_snd (clock : Nat → Nat) (gs : List TCGroup) :
    ∀ (cats : List String) (k0 : Nat),
    (normalizeGroups clock gs k0 cats).snd
      = k0 + (((normalizeGroups clock gs k0 cats).fst).map fun g =>
          g.testCases.length).sum
  | [], k0 => by simp [normalizeGroups]
  | c :: cs, k0 => by
    have ha := assignIds_snd clock c
      ((lookupLast gs c).getD { category := c, testCases := [] }).testCases 0 k0
    have hl := assignIds_length clock c
      ((lookupLast gs c).getD { category := c, testCases := [] }).testCases 0 k0
    have ih := normalizeGroups_snd clock gs cs
      ((assignIds clock c 0 k0
        ((lookupLast gs c).getD { category := c, testCases := [] }).testCases).snd)
    simp only [normalizeGroups, List.map_cons, List.sum_cons]
    rw [ih, ha, hl]
    omega

/-- Filtering with a predicate that keeps every group of category `c`
does not change the category-map entry for `c`. -/
theorem lookupLast_filter (q : TCGroup → Bool) (c : String)
    (hq : ∀ g : TCGroup, g.category = c → q g = true) :
    ∀ gs : List TCGroup, lookupLast (gs.filter q) c = lookupLast gs c
  | [] => rfl
  | g :: rest => by
    have ih := lookupLast_filter q c hq rest
    by_cases hg : q g = true
    · simp [List.filter_cons, hg, lookupLast, ih]
    · have hgc : (g.category == c) = false := by
        apply beq_eq_false_iff_ne.mpr
        intro h
        exact hg (hq g h)
      rw [List.filter_cons, if_neg (by simpa using hg), ih]
      simp only [lookupLast, hgc]
      cases hr : lookupLast rest c <;> simp

/-- The normalizer depends on the raw input only through the
category-map lookups of the requested categories. -/
theorem normalizeGroups_congr (clock : Nat → Nat) (gs1 gs2 : List TCGroup) :
    ∀ (cats : List String),
    (∀ c ∈ cats, lookupLast gs1 c = lookupLast gs2 c) →
    ∀ k, normalizeGroups clock gs1 k cats = normalizeGroups clock gs2 k cats
  | [], _, _ => rfl
  | c :: cs, h, k => by
    have hc := h c (by simp)
    have ih := normalizeGroups_congr clock gs1 gs2 cs
      (fun c' hc' => h c' (List.mem_cons_of_mem _ hc'))
    simp only [normalizeGroups, hc]
    rw [ih]

/-- C3: for every input, the normalizer returns exactly the 8 groups of
the fixed category list in its order; a category absent from the input
yields a group with no test cases; and appending a group overrides any
earlier group of the same category (the last occurrence wins). -/
theorem normalize_shape (clock : Nat → Nat) (gs : List TCGroup) :
    ((ensure_all_categories clock gs).map TCGroup.category = CATEGORIES
  ∧ (ensure_all_categories clock gs).length = 8)
  ∧ (∀ c, c ∈ CATEGORIES → (∀ g, g ∈ gs → g.category ≠ c) →
      ({ category := c, testCases := [] } : TCGroup) ∈ ensure_all_categories clock gs)
  ∧ (∀ g : TCGroup, g.category ∈ CATEGORIES →
      ∃ k, ({ category := g.category,
              testCases := (assignIds clock g.category 0 k g.testCases).fst } : TCGroup)
           ∈ ensure_all_categories clock (gs ++ [g])) := by
  refine ⟨⟨normalizeGroups_map_category clock gs CATEGORIES 0, ?_⟩, ?_, ?_⟩
  · calc (ensure_all_categories clock gs).length
        = ((ensure_all_categories clock gs).map TCGroup.category).length :=
          (List.length_map _ _).symm
      _ = CATEGORIES.length := by
          rw [show (ensure_all_categories clock gs).map TCGroup.category = CATEGORIES from
            normalizeGroups_map_category clock gs CATEGORIES 0]
      _ = 8 := rfl
  · intro c hc hnone
    have hn : lookupLast gs c = none := lookupLast_eq_none gs c hnone
    obtain ⟨k, hk⟩ := normalizeGroups_mem clock gs CATEGORIES 0 c hc
    rw [hn] at hk
    simpa [assignIds, ensure_all_categories] using hk
  · intro g hg
    have hl : lookupLast (gs ++ [g]) g.category = some g :=
      lookupLast_concat_mid gs g [] g.category rfl (by simp)
    obtain ⟨k, hk⟩ := normalizeGroups_mem clock (gs ++ [g]) CATEGORIES 0 g.category hg
    rw [hl] at hk
    exact ⟨k, by simpa [ensure_all_categories] using hk⟩

/-- Witness for C3: on empty input all 8 categories appear in order with
empty test cases; with a duplicated Negative group the later one wins. -/
theorem normalize_shape_witness :
    (ensure_all_categories clock0 []).map TCGroup.category = CATEGORIES
  ∧ ({ category := "Positive", testCases := [] } : TCGroup)
      ∈ ensure_all_categories clock0 []
  ∧ ∃ k, ({ category := "Negative",
            testCases := (assignIds clock0 "Negative" 0 k
              [[("title", Json.str "t2")]]).fst } : TCGroup)
         ∈ ensure_all_categories clock0
             ([⟨"Negative", [[("title", Json.str "t1")]]⟩]
               ++ [⟨"Negative", [[("title", Json.str "t2")]]⟩]) :=
  ⟨(normalize_shape clock0 []).1.1,
   (normalize_shape clock0 []).2.1 "Positive" (by decide)
     (fun g hg => absurd hg (List.not_mem_nil g)),
   (normalize_shape clock0 [⟨"Negative", [[("title", Json.str "t1")]]⟩]).2.2
     ⟨"Negative", [[("title", Json.str "t2")]]⟩ (by decide)⟩

/-- C7: every test case the normalizer outputs carries an id of the form
category, position index within its group, and one clock reading; and
the clock is read exactly once per output test case. -/
theorem normalize_ids (clock : Nat → Nat) (gs : List TCGroup) :
    (∀ gOut ∈ ensure_all_categories clock gs, ∀ (i : Nat) (tc : Dict),
       gOut.testCases[i]? = some tc →
       ∃ k, dictGet tc "id" = some (Json.str (idString gOut.category i (clock k))))
  ∧ normalizeReads clock gs
      = (((ensure_all_categories clock gs).map fun g => g.testCases.length)).sum := by
  constructor
  · intro gOut hmem i tc htc
    obtain ⟨c, k, _, hcat, htcs⟩ := normalizeGroups_shape clock gs CATEGORIES 0 gOut hmem
    rw [htcs, assignIds_getElem] at htc
    obtain ⟨tcIn, _, hf⟩ := Option.map_eq_some'.mp htc
    refine ⟨k + i, ?_⟩
    rw [hcat, ← hf]
    simpa using dictGet_dictSet_self "id"
      (Json.str (idString c (0 + i) (clock (k + i)))) tcIn
  · simpa [normalizeReads, ensure_all_categories] using
      normalizeGroups_snd clock gs CATEGORIES 0

/-- Witness for C7: normalizing a single Positive group with one test
case yields that test case with the generated id `Positive-0-` followed
by the clock reading. -/
theorem normalize_ids_witness :
    (⟨"Positive", [[("title", Json.str "t"),
        ("id", Json.str "Positive-0-1731500000000")]]⟩ : TCGroup)
      ∈ ensure_all_categories clock0 [⟨"Positive", [[("title", Json.str "t")]]⟩]
  ∧ ∃ k, dictGet [("title", Json.str "t"),
        ("id", Json.str "Positive-0-1731500000000")] "id"
      = some (Json.str (idString "Positive" 0 (clock0 k))) :=
  ⟨List.mem_cons_self _ _,
   (normalize_ids clock0 [⟨"Positive", [[("title", Json.str "t")]]⟩]).1
     ⟨"Positive", [[("title", Json.str "t"),
        ("id", Json.str "Positive-0-1731500000000")]]⟩
     (List.mem_cons_self _ _) 0
     [("title", Json.str "t"), ("id", Json.str "Positive-0-1731500000000")] rfl⟩

/-- C9: a raw group whose category is outside the fixed 8-entry list is
silently discarded — filtering such groups away does not change the
output at all — and the output never contains a category outside the
fixed list. -/
theorem unknown_categories_discarded (clock : Nat → Nat) (gs : List TCGroup) :
    ensure_all_categories clock
        (gs.filter fun g => CATEGORIES.contains g.category)
      = ensure_all_categories clock gs
  ∧ ∀ gOut ∈ ensure_all_categories clock gs, gOut.category ∈ CATEGORIES := by
  constructor
  · have h : ∀ c ∈ CATEGORIES,
        lookupLast (gs.filter fun g => CATEGORIES.contains g.category) c
          = lookupLast gs c := by
      intro c hc
      apply lookupLast_filter
      intro g hgc
      rw [hgc]
      exact List.elem_eq_true_of_mem hc
    have := normalizeGroups_congr clock
      (gs.filter fun g => CATEGORIES.contains g.category) gs CATEGORIES h 0
    simpa [ensure_all_categories] using congrArg Prod.fst this
  · intro gOut hmem
    have h1 : gOut.category ∈ (ensure_all_categories clock gs).map TCGroup.category :=
      List.mem_map_of_mem _ hmem
    rwa [show (ensure_all_categories clock gs).map TCGroup.category = CATEGORIES from
      normalizeGroups_map_category clock gs CATEGORIES 0] at h1

/-- Witness for C9: a group of unknown category `Nonsense` contributes
nothing (filtering it away leaves the output unchanged), and an output
group's category is one of the fixed eight. -/
theorem unknown_categories_discarded_witness :
    ensure_all_categories clock0
        ([⟨"Nonsense", [[("title", Json.str "x")]]⟩].filter
          fun g => CATEGORIES.contains g.category)
      = ensure_all_categories clock0 [⟨"Nonsense", [[("title", Json.str "x")]]⟩]
  ∧ ("Positive" : String) ∈ CATEGORIES :=
  ⟨(unknown_categories_discarded clock0 [⟨"Nonsense", [[("title", Json.str "x")]]⟩]).1,
   (unknown_categories_discarded clock0 [⟨"Nonsense", [[("title", Json.str "x")]]⟩]).2
     ⟨"Positive", []⟩ (List.mem_cons_self _ _)⟩

/-- C10: a group of a fixed category that is the last occurrence of its
category reappears in the output with its test cases in their original
order, each changed only by setting the `id` key; every other key of
every test case reads unchanged. -/
theorem normalize_frame (clock : Nat → Nat) (l1 l2 : List TCGroup) (g : TCGroup)
    (hc : g.category ∈ CATEGORIES)
    (h2 : ∀ g' ∈ l2, g'.category ≠ g.category) :
    ∃ k gOut, gOut ∈ ensure_all_categories clock (l1 ++ g :: l2) ∧
      gOut.category = g.category ∧
      gOut.testCases.length = g.testCases.length ∧
      ∀ (i : Nat) (tc : Dict), g.testCases[i]? = some tc →
        ∃ tc', gOut.testCases[i]? = some tc' ∧
          dictGet tc' "id"
            = some (Json.str (idString g.category i (clock (k + i)))) ∧
          ∀ key, key ≠ "id" → dictGet tc' key = dictGet tc key := by
  have hl : lookupLast (l1 ++ g :: l2) g.category = some g :=
    lookupLast_concat_mid l1 g l2 g.category rfl h2
  obtain ⟨k, hk⟩ := normalizeGroups_mem clock (l1 ++ g :: l2) CATEGORIES 0 g.category hc
  rw [hl] at hk
  simp only [Option.getD_some] at hk
  refine ⟨k, ⟨g.category, (assignIds clock g.category 0 k g.testCases).fst⟩, hk, rfl,
    assignIds_length clock g.category g.testCases 0 k, ?_⟩
  intro i tc htc
  refine ⟨dictSet tc "id" (Json.str (idString g.category i (clock (k + i)))), ?_, ?_, ?_⟩
  · rw [assignIds_getElem, htc]
    simp
  · exact dictGet_dictSet_self "id" (Json.str (idString g.category i (clock (k + i)))) tc
  · intro key hkey
    exact dictGet_dictSet_ne "id" (Json.str (idString g.category i (clock (k + i)))) key hkey tc

/-- Witness for C10: a single Positive group passes through with its
title preserved and only the id added. -/
theorem normalize_frame_witness :
    ∃ k gOut, gOut ∈ ensure_all_categories clock0
        [⟨"Positive", [[("title", Json.str "t")]]⟩] ∧
      gOut.category = "Positive" ∧
      gOut.testCases.length = ([[("title", Json.str "t")]] : List Dict).length ∧
      ∀ (i : Nat) (tc : Dict), ([[("title", Json.str "t")]] : List Dict)[i]? = some tc →
        ∃ tc', gOut.testCases[i]? = some tc' ∧
          dictGet tc' "id"
            = some (Json.str (idString "Positive" i (clock0 (k + i)))) ∧
          ∀ key, key ≠ "id" → dictGet tc' key = dictGet tc key :=
  normalize_frame clock0 [] [] ⟨"Positive", [[("title", Json.str "t")]]⟩ (by decide)
    (fun g' hg' => absurd hg' (List.not_mem_nil g'))

/-! ### Lemmas about the CSV export -/

/-- A traversal whose steps all succeed yields the mapped list. -/
theorem optMapM_eq_map (f : α → Option β) (g : α → β) :
    ∀ l : List α, (∀ x ∈ l, f x = some (g x)) → optMapM f l = some (l.map g)
  | [], _ => rfl
  | x :: xs, h => by
    have hx := h x (by simp)
    have ih := optMapM_eq_map f g xs fun y hy => h y (List.mem_cons_of_mem _ hy)
    simp [optMapM, hx, ih]

/-- Extracting strings from an all-string array succeeds and returns
exactly its string elements. -/
theorem asStrings_of_all_str (xs : List Json)
    (h : (xs.all fun j => match j with | Json.str _ => true | _ => false) = true) :
    asStrings xs
      = some (xs.filterMap fun j => match j with
          | Json.str s => some s
          | _ => none) := by
  induction xs with
  | nil => rfl
  | cons x xs ih =>
    rw [List.all_cons, Bool.and_eq_true] at h
    cases x with
    | str s => simp [asStrings, ih h.2, List.filterMap_cons]
    | null => exact Bool.noConfusion h.1
    | bool b => exact Bool.noConfusion h.1
    | num n => exact Bool.noConfusion h.1
    | arr ys => exact Bool.noConfusion h.1
    | obj kvs => exact Bool.noConfusion h.1

/-- On a well-typed test case the steps cell is the pipe-joined steps
sequence of the spec. -/
theorem stepsCell_ok (tc : Dict) (h : stepsOkB tc = true) :
    stepsCell tc = some (joinPipe (spec_steps tc)) := by
  rw [stepsOkB] at h
  rw [stepsCell, spec_steps]
  cases hd : dictGet tc "steps" with
  | none => rfl
  | some j =>
    rw [hd] at h
    cases j with
    | arr xs =>
      show Option.map joinPipe (asStrings xs)
        = some (joinPipe (xs.filterMap fun j => match j with
            | Json.str s => some s
            | _ => none))
      rw [asStrings_of_all_str xs h]
      rfl
    | null => exact Bool.noConfusion h
    | bool b => exact Bool.noConfusion h
    | num n => exact Bool.noConfusion h
    | str s => exact Bool.noConfusion h
    | obj kvs => exact Bool.noConfusion h

/-- On a well-typed test case the emitted CSV row is the spec's row. -/
theorem csv_row_ok (cat : String) (tc : Dict) (h : stepsOkB tc = true) :
    csv_row cat tc = some (spec_csv_row cat tc) := by
  rw [csv_row, stepsCell_ok tc h]
  rfl

/-- On a group of well-typed test cases the emitted rows are the spec's
rows, one per test case in order. -/
theorem rowsOfGroup_ok (g : TCGroup)
    (h : ∀ tc ∈ g.testCases, stepsOkB tc = true) :
    rowsOfGroup g = some (g.testCases.map (spec_csv_row g.category)) :=
  optMapM_eq_map _ _ g.testCases fun tc htc => csv_row_ok g.category tc (h tc htc)

/-- C6: the CSV export emits the header row followed by one row per test
case across all groups concatenated in order, with the columns Category,
Title, Description, Steps, Expected Result, Priority; steps are
flattened into one cell joined by a pipe separator, and missing fields
default to the empty string except priority, which defaults to Medium
(the defaults are part of `spec_csv_row` via `cellStr`). -/
theorem csv_rows_spec (gs : List TCGroup)
    (h : ∀ g ∈ gs, ∀ tc ∈ g.testCases, stepsOkB tc = true) :
    export_to_csv_rows gs
      = some (headerRow ::
          (gs.map fun g => g.testCases.map (spec_csv_row g.category)).flatten) := by
  have hm : optMapM rowsOfGroup gs
      = some (gs.map fun g => g.testCases.map (spec_csv_row g.category)) :=
    optMapM_eq_map _ _ gs fun g hg => rowsOfGroup_ok g (h g hg)
  rw [export_to_csv_rows, hm]

/-- Witness for C6: one test case with steps `s1`, `s2` yields a single
data row whose Steps cell is exactly `s1 | s2`, with empty defaults and
Medium priority. -/
theorem csv_rows_spec_witness :
    export_to_csv_rows
        [⟨"Positive", [[("steps", Json.arr [Json.str "s1", Json.str "s2"])]]⟩]
      = some [headerRow, ["Positive", "", "", "s1 | s2", "", "Medium"]] :=
  (csv_rows_spec
      [⟨"Positive", [[("steps", Json.arr [Json.str "s1", Json.str "s2"])]]⟩]
      (by decide)).trans rfl

/-! ### The lexicographic order and the sorted key union -/

/-- The strict lexicographic order is irreflexive. -/
theorem lexLt_irrefl : ∀ as : List Char, lexLt as as = false
  | [] => rfl
  | a :: as => by simp [lexLt, lexLt_irrefl as]

/-- The strict lexicographic order is transitive. -/
theorem lexLt_trans : ∀ as bs cs : List Char,
    lexLt as bs = true → lexLt bs cs = true → lexLt as cs = true
  | [], [], _, h1, _ => by simp [lexLt] at h1
  | [], _ :: _, [], _, h2 => by simp [lexLt] at h2
  | [], _ :: _, _ :: _, _, _ => by simp [lexLt]
  | _ :: _, [], _, h1, _ => by simp [lexLt] at h1
  | _ :: _, _ :: _, [], _, h2 => by simp [lexLt] at h2
  | a :: as, b :: bs, c :: cs, h1, h2 => by
    simp only [lexLt] at h1 h2 ⊢
    rcases lt_trichotomy a b with hab | hab | hab
    · rcases lt_trichotomy b c with hbc | hbc | hbc
      · simp [lt_trans hab hbc]
      · subst hbc
        simp [hab]
      · rw [if_neg (lt_asymm hbc), if_pos hbc] at h2
        exact Bool.noConfusion h2
    · subst hab
      rw [if_neg (lt_irrefl a), if_neg (lt_irrefl a)] at h1
      rcases lt_trichotomy a c with hac | hac | hac
      · simp [hac]
      · subst hac
        rw [if_neg (lt_irrefl a), if_neg (lt_irrefl a)] at h2 ⊢
        exact lexLt_trans as bs cs h1 h2
      · rw [if_neg (lt_asymm hac), if_pos hac] at h2
        exact Bool.noConfusion h2
    · rw [if_neg (lt_asymm hab), if_pos hab] at h1
      exact Bool.noConfusion h1

/-- The strict lexicographic order is trichotomous. -/
theorem lexLt_trichotomy : ∀ as bs : List Char,
    lexLt as bs = true ∨ as = bs ∨ lexLt bs as = true
  | [], [] => Or.inr (Or.inl rfl)
  | [], _ :: _ => Or.inl (by simp [lexLt])
  | _ :: _, [] => Or.inr (Or.inr (by simp [lexLt]))
  | a :: as, b :: bs => by
    rcases lt_trichotomy a b with hab | hab | hab
    · exact Or.inl (by simp [lexLt, hab])
    · subst hab
      rcases lexLt_trichotomy as bs with h | h | h
      · exact Or.inl (by simp [lexLt, lt_irrefl, h])
      · exact Or.inr (Or.inl (by rw [h]))
      · exact Or.inr (Or.inr (by simp [lexLt, lt_irrefl, h]))
    · exact Or.inr (Or.inr (by simp [lexLt, hab]))

/-- Irreflexivity at the string level. -/
theorem strLt_irrefl (a : String) : strLt a a = false :=
  lexLt_irrefl a.toList

/-- Transitivity at the string level. -/
theorem strLt_trans (a b c : String)
    (h1 : strLt a b = true) (h2 : strLt b c = true) : strLt a c = true :=
  lexLt_trans _ _ _ h1 h2

/-- Trichotomy at the string level. -/
theorem strLt_trichotomy (a b : String) :
    strLt a b = true ∨ a = b ∨ strLt b a = true := by
  rcases lexLt_trichotomy a.toList b.toList with h | h | h
  · exact Or.inl h
  · exact Or.inr (Or.inl (String.toList_inj.mp h))
  · exact Or.inr (Or.inr h)

/-- Asymmetry at the string level. -/
theorem strLt_asymm (a b : String) (h : strLt a b = true) : strLt b a = false := by
  cases hb : strLt b a
  · rfl
  · have h2 := strLt_trans a b a h hb
    rw [strLt_irrefl a] at h2
    exact Bool.noConfusion h2

/-- The non-strict order holds iff the reverse strict order fails. -/
theorem strLe_iff (a b : String) : strLe a b = true ↔ strLt b a = false := by
  rw [strLe]
  cases strLt b a <;> simp

/-- The strict order implies the non-strict one. -/
theorem strLe_of_strLt {a b : String} (h : strLt a b = true) : strLe a b = true :=
  (strLe_iff a b).mpr (strLt_asymm a b h)

/-- The non-strict order is transitive. -/
theorem strLe_trans {a b c : String}
    (h1 : strLe a b = true) (h2 : strLe b c = true) : strLe a c = true := by
  rw [strLe_iff] at h1 h2 ⊢
  cases hca : strLt c a
  · rfl
  · rcases strLt_trichotomy b c with hbc | hbc | hbc
    · have h3 := strLt_trans b c a hbc hca
      rw [h1] at h3
      exact Bool.noConfusion h3
    · subst hbc
      rw [h1] at hca
      exact Bool.noConfusion hca
    · rw [h2] at hbc
      exact Bool.noConfusion hbc

/-- The non-strict order is total. -/
theorem strLe_of_not_strLe {x y : String} (h : ¬strLe x y = true) :
    strLe y x = true := by
  have hx : strLt y x = true := by
    rw [strLe] at h
    cases hyx : strLt y x
    · rw [hyx] at h
      exact absurd rfl h
    · rfl
  exact strLe_of_strLt hx

/-- Membership in a sorted insertion. -/
theorem mem_insertSorted (x : String) : ∀ (l : List String) (b : String),
    b ∈ insertSorted x l ↔ b = x ∨ b ∈ l
  | [], b => by simp [insertSorted]
  | y :: ys, b => by
    by_cases h : strLe x y = true
    · simp [insertSorted, h]
    · simp [insertSorted, h, mem_insertSorted x ys b]
      tauto

/-- Sorted insertion is a permutation of consing. -/
theorem perm_insertSorted (x : String) : ∀ l : List String,
    (insertSorted x l).Perm (x :: l)
  | [] => List.Perm.refl _
  | y :: ys => by
    by_cases h : strLe x y = true
    · simp [insertSorted, h]
    · simp only [insertSorted, if_neg h]
      exact ((perm_insertSorted x ys).cons y).trans (List.Perm.swap x y ys)

/-- Insertion sort permutes its input. -/
theorem sortStrings_perm : ∀ l : List String, (sortStrings l).Perm l
  | [] => List.Perm.refl _
  | x :: xs => (perm_insertSorted x (sortStrings xs)).trans ((sortStrings_perm xs).cons x)

/-- Sorted insertion preserves sortedness. -/
theorem pairwise_insertSorted (x : String) : ∀ l : List String,
    l.Pairwise (fun a b => strLe a b = true) →
    (insertSorted x l).Pairwise (fun a b => strLe a b = true)
  | [], _ => by simp [insertSorted]
  | y :: ys, h => by
    rw [List.pairwise_cons] at h
    obtain ⟨hy, hys⟩ := h
    by_cases hxy : strLe x y = true
    · simp only [insertSorted, if_pos hxy]
      refine List.pairwise_cons.mpr ⟨?_, List.pairwise_cons.mpr ⟨hy, hys⟩⟩
      intro z hz
      rcases List.mem_cons.mp hz with rfl | hz'
      · exact hxy
      · exact strLe_trans hxy (hy z hz')
    · simp only [insertSorted, if_neg hxy]
      refine List.pairwise_cons.mpr ⟨?_, pairwise_insertSorted x ys hys⟩
      intro z hz
      rcases (mem_insertSorted x ys z).mp hz with rfl | hz'
      · exact strLe_of_not_strLe hxy
      · exact hy z hz'

/-- Insertion sort sorts. -/
theorem sortStrings_sorted : ∀ l : List String,
    (sortStrings l).Pairwise (fun a b => strLe a b = true)
  | [] => List.Pairwise.nil
  | x :: xs => pairwise_insertSorted x (sortStrings xs) (sortStrings_sorted xs)

/-- Insertion sort preserves distinctness. -/
theorem sortStrings_nodup (l : List String) (h : l.Nodup) :
    (sortStrings l).Nodup :=
  (sortStrings_perm l).nodup_iff.mpr h

/-- A sorted list of distinct strings is strictly increasing. -/
theorem pairwise_strLt_sortStrings (l : List String) (h : l.Nodup) :
    (sortStrings l).Pairwise (fun a b => strLt a b = true) := by
  have h1 := sortStrings_sorted l
  have h2 : (sortStrings l).Pairwise (· ≠ ·) := sortStrings_nodup l h
  refine (h1.and h2).imp ?_
  intro a b hab
  obtain ⟨hle, hne⟩ := hab
  rcases strLt_trichotomy a b with h3 | h3 | h3
  · exact h3
  · exact absurd h3 hne
  · rw [strLe_iff] at hle
    rw [hle] at h3
    exact Bool.noConfusion h3

/-- C8: the rows of `compareFields` carry a key set equal to the union
of the keys of both mappings, in strictly increasing lexicographic
order (hence sorted ascending with no duplicate keys). -/
theorem compareFields_keys (L R : Dict) :
    ((compareFields L R).map ComparisonRow.field).Pairwise
      (fun a b => strLt a b = true)
  ∧ ∀ k : String, k ∈ (compareFields L R).map ComparisonRow.field
      ↔ (k ∈ L.map Prod.fst ∨ k ∈ R.map Prod.fst) := by
  have hfields : (compareFields L R).map ComparisonRow.field = unionKeys L R := by
    rw [compareFields, List.map_map]
    exact List.map_id _
  constructor
  · rw [hfields, unionKeys]
    exact pairwise_strLt_sortStrings _ (List.nodup_dedup _)
  · intro k
    rw [hfields, unionKeys, (sortStrings_perm _).mem_iff, List.mem_dedup,
      List.mem_append]
